import Mathlib

/-!
Verification of the sqlite backend of data-diff
(`src/data_diff/databases/sqlite.py`).

The `Dialect` methods of the source are pure string builders; they are
embedded here verbatim as Lean functions on `String`.  The behaviour of the
generated SQL fragments is settled against executable models of the SQLite
built-ins they mention (`strftime`, `substr`, `format`, `IS NOT`, `||`),
written from SQLite's documented semantics.  The connection manager
(`SQLite.create_connection` / `SQLite.close`) is embedded as explicit state
passing over a connection value recording its registered user-defined
functions, together with the text the call writes to standard output.
-/

namespace SqliteDiff

/-! ## SQL runtime values -/

/-- A SQLite runtime value, as far as the verified fragments need:
`NULL`, integers and text. -/
inductive SQLVal where
  | null
  | int (n : Int)
  | text (s : String)
  deriving DecidableEq

/-! ## Decimal digit strings -/

/-- The numeric value of a decimal digit character, `none` on any other
character. -/
def charDigit? (c : Char) : Option Nat :=
  if c.isDigit then some (c.toNat - 48) else none

/-- The character of one decimal digit. -/
def digitChar (d : Nat) : Char := Char.ofNat (48 + d)

/-- Base-10 digits of `n`, least significant first, by fuel recursion (so
that it evaluates inside the kernel); agrees with `Nat.digits 10` whenever
`n ≤ fuel`. -/
def digitsRevAux : Nat → Nat → List Nat
  | _, 0 => []
  | 0, _ + 1 => []
  | fuel + 1, n + 1 => (n + 1) % 10 :: digitsRevAux fuel ((n + 1) / 10)

/-- Base-10 digits of `n`, least significant first. -/
def natDigits10 (n : Nat) : List Nat := digitsRevAux n n

/-- Decimal digit characters of `n`, most significant first (`"0"` for 0),
exactly as printf-style formatting prints a natural number. -/
def natMSBChars (n : Nat) : List Char :=
  if n = 0 then ['0'] else ((natDigits10 n).map digitChar).reverse

/-- `n` printed in decimal and left-padded with `0` to `k` characters. -/
def padNat (k n : Nat) : List Char :=
  List.replicate (k - (natMSBChars n).length) '0' ++ natMSBChars n

/-- Reads a run of decimal digit characters, most significant first,
accumulating onto `acc`; fails on a non-digit. -/
def digitsValAux (acc : Nat) : List Char → Option Nat
  | [] => some acc
  | c :: cs =>
    match charDigit? c with
    | some d => digitsValAux (10 * acc + d) cs
    | none => none

/-- The numeric value of a digit string. -/
def digitsVal (l : List Char) : Option Nat := digitsValAux 0 l

/-! ## Column types

The canonical column types come from `data_diff.abcs.database_types`,
which the source imports; only the fields the sqlite dialect reads are
modelled. -/

/-- A temporal column type: fractional-second digits to keep, and whether
the backend rounds (rather than truncates) on precision loss. -/
structure TemporalType where
  precision : Nat
  rounds : Bool

/-- A fractional (float or decimal) column type: fractional digits kept
after normalization. -/
structure FractionalType where
  precision : Nat

/-- The canonical type classes named by the sqlite dialect's table:
`Integer`, `Float`, `Decimal`, `Text` and `UnknownColType` of
`data_diff.abcs.database_types`. -/
inductive ColTypeClass where
  | Integer
  | Float
  | Decimal
  | Text
  | UnknownColType
  deriving DecidableEq

/-- `Dialect.TYPE_CLASSES`, transcribed entry by entry from the source. -/
def TYPE_CLASSES : List (String × ColTypeClass) := [
  ("INT", ColTypeClass.Integer),
  ("INTEGER", ColTypeClass.Integer),
  ("TINYINT", ColTypeClass.Integer),
  ("SMALLINT", ColTypeClass.Integer),
  ("MEDIUMINT", ColTypeClass.Integer),
  ("BIGINT", ColTypeClass.Integer),
  ("UNSIGNED BIG INT", ColTypeClass.Integer),
  ("INT1", ColTypeClass.Integer),
  ("INT2", ColTypeClass.Integer),
  ("INT3", ColTypeClass.Integer),
  ("INT4", ColTypeClass.Integer),
  ("INT6", ColTypeClass.Integer),
  ("INT8", ColTypeClass.Integer),
  ("CHARACTER", ColTypeClass.Text),
  ("VARCHAR", ColTypeClass.Text),
  ("VARYING CHARACTER", ColTypeClass.Text),
  ("NCHAR", ColTypeClass.Text),
  ("NATIVE CHARACTER", ColTypeClass.Text),
  ("NVARCHAR", ColTypeClass.Text),
  ("TEXT", ColTypeClass.Text),
  ("CLOB", ColTypeClass.Text),
  ("REAL", ColTypeClass.Float),
  ("DOUBLE", ColTypeClass.Float),
  ("DOUBLE PRECISION", ColTypeClass.Float),
  ("FLOAT", ColTypeClass.Float),
  ("NUMERIC", ColTypeClass.Float),
  ("DECIMAL", ColTypeClass.Decimal),
  ("BOOLEAN", ColTypeClass.Integer),
  ("DATE", ColTypeClass.UnknownColType),
  ("DATETIME", ColTypeClass.UnknownColType),
  ("NULL", ColTypeClass.UnknownColType),
  ("BLOB", ColTypeClass.UnknownColType)]

/-- Modelled from the spec: the `classify(native_type_name)` lookup over the
dialect's `TYPE_CLASSES` table is performed by the base database class
(`data_diff.databases.base`, outside the verified file); per the spec,
unrecognized names return `Unknown` rather than failing. -/
def classify (name : String) : ColTypeClass :=
  (TYPE_CLASSES.lookup name).getD ColTypeClass.UnknownColType

/-! ## Dialect fragment builders (the source's string formatting, verbatim) -/

/-- `Dialect.quote`: wraps the name in double quotes, nothing else. -/
def quote (s : String) : String := "\"" ++ s ++ "\""

/-- `Dialect.concat`: asserts `len(items) > 1`, then joins the items with
the `||` operator; the failed assertion is modelled as `none`. -/
def concat (items : List String) : Option String :=
  if 1 < items.length then some (String.intercalate " || " items) else none

/-- `Dialect.is_distinct_from`: the fragment `a is not b`. -/
def is_distinct_from (a b : String) : String := a ++ " is not " ++ b

/-- `Dialect.md5_as_int`: a call to the registered UDF `data_diff__md5_int`. -/
def md5_as_int (s : String) : String := "data_diff__md5_int(" ++ s ++ ")"

/-- `Dialect.md5_as_hex`: a call to the registered UDF `data_diff__md5_hex`. -/
def md5_as_hex (s : String) : String := "data_diff__md5_hex(" ++ s ++ ")"

/-- `TIMESTAMP_PRECISION_POS` of `data_diff.databases.base` (imported by the
source, outside the verified file): the character position at which the
fractional digits of `YYYY-MM-DD HH:MM:SS.` start, i.e. 20. -/
def TIMESTAMP_PRECISION_POS : Nat := 20

/-- `Dialect.normalize_timestamp`: for a rounding column type,
`substr(strftime(<value>, '%Y-%m-%d %H:%M:%f'), 1, 20 + precision)`;
otherwise the bare `strftime(<value>, '%Y-%m-%d %H:%M:%f')`. -/
def normalize_timestamp (value : String) (coltype : TemporalType) : String :=
  if coltype.rounds then
    "substr(strftime(" ++ value ++ ", \x27%Y-%m-%d %H:%M:%f\x27), 1, " ++
      toString (TIMESTAMP_PRECISION_POS + coltype.precision) ++ ")"
  else
    "strftime(" ++ value ++ ", \x27%Y-%m-%d %H:%M:%f\x27)"

/-- `Dialect.normalize_number`: the fragment
`format('%.<precision>f', <value>)`. -/
def normalize_number (value : String) (coltype : FractionalType) : String :=
  "format(\x27%." ++ toString coltype.precision ++ "f\x27, " ++ value ++ ")"

/-! ## SQLite semantics of the generated fragments -/

/-- SQLite's `IS NOT` operator: a boolean (0 or 1, never `NULL`) that is
true exactly when the operands are distinct, two `NULL`s being not
distinct. -/
def sqliteIsNot (a b : SQLVal) : SQLVal := SQLVal.int (if a = b then 0 else 1)

/-- The value the fragment `is_distinct_from(a, b)`, i.e. `a is not b`,
evaluates to on operand values `a` and `b`. -/
def is_distinct_from_eval (a b : SQLVal) : SQLVal := sqliteIsNot a b

/-- The text SQLite coerces a non-`NULL` value to. -/
def valText : SQLVal → String
  | SQLVal.null => ""
  | SQLVal.int n => toString n
  | SQLVal.text s => s

/-- SQLite's binary `||`: `NULL`-absorbing, otherwise concatenation of the
operands' text forms. -/
def sqliteConcat2 (a b : SQLVal) : SQLVal :=
  match a, b with
  | SQLVal.null, _ => SQLVal.null
  | _, SQLVal.null => SQLVal.null
  | a, b => SQLVal.text (valText a ++ valText b)

/-- The value the fragment produced by `concat`, a left-nested `||` chain,
evaluates to when its operands evaluate to the given values. -/
def evalConcatChain : List SQLVal → SQLVal
  | [] => SQLVal.null
  | v :: vs => vs.foldl sqliteConcat2 v

/-- Plain concatenation of a list of strings, the reference value of the
`concat` contract. -/
def strJoin : List String → String
  | [] => ""
  | s :: ss => s ++ strJoin ss

/-- An exact decimal value `mant / 10 ^ scale`. -/
structure DecVal where
  mant : Int
  scale : Nat
  deriving DecidableEq

/-- The rational a decimal value denotes. -/
def DecVal.toRat (d : DecVal) : ℚ := (d.mant : ℚ) / (10 : ℚ) ^ d.scale

/-- SQLite's `format('%.<p>f', v)` on an exact decimal argument: the
magnitude is rounded half-up to `p` fractional digits and printed as `I.P`
with exactly `p` fractional digits, the dot omitted for `p = 0` (the
IEEE-754 representation limits of the backend's numeric storage are outside
this model). -/
def sqliteFormatF (p : Nat) (d : DecVal) : String :=
  let num := d.mant.natAbs * 10 ^ p
  let den := 10 ^ d.scale
  let a := (2 * num + den) / (2 * den)
  String.mk ((if d.mant < 0 then ['-'] else []) ++ natMSBChars (a / 10 ^ p) ++
    (if p = 0 then [] else '.' :: padNat p (a % 10 ^ p)))

/-- The value the fragment `normalize_number(value, coltype)` evaluates to
when the column value is the exact decimal `v`. -/
def normalize_number_eval (v : DecVal) (coltype : FractionalType) : String :=
  sqliteFormatF coltype.precision v

/-- Strips one leading minus sign. -/
def stripNeg (l : List Char) : Bool × List Char :=
  match l with
  | [] => (false, [])
  | c :: cs => if c = '-' then (true, cs) else (false, c :: cs)

/-- Applies a parsed sign to a magnitude. -/
def intOfSign (neg : Bool) (n : Nat) : Int := if neg then -(n : Int) else (n : Int)

/-- Reads a plain decimal literal `-?I[.P]` back into an exact decimal
(mantissa and scale): the independent inverse used to state the
`normalize_number` round trip. -/
def parseDecL (l : List Char) : Option DecVal :=
  let q := stripNeg l
  let ip := q.2.takeWhile (fun c => c != '.')
  let rest := q.2.dropWhile (fun c => c != '.')
  if ip = [] then none else
  match digitsVal ip with
  | none => none
  | some n =>
    match rest with
    | [] => some ⟨intOfSign q.1 n, 0⟩
    | _ :: f =>
      match digitsVal f with
      | none => none
      | some fv => some ⟨intOfSign q.1 (n * 10 ^ f.length + fv), f.length⟩

/-- `parseDecL` on the characters of a string. -/
def parseDec (s : String) : Option DecVal := parseDecL s.data

/-- A parsed SQLite datetime: calendar fields plus the seconds within the
minute counted in milliseconds (SQLite stores times with millisecond
resolution, rounding the parsed fractional seconds). -/
structure DTVal where
  year : Nat
  month : Nat
  day : Nat
  hour : Nat
  minute : Nat
  secMs : Nat
  deriving DecidableEq

/-- Fractional seconds after `SS`, converted to SQLite's milliseconds:
nothing means 0, otherwise a dot followed by digits giving `n / 10^k`
seconds, rounded half-up to milliseconds. -/
def parseFrac : List Char → Option Nat
  | [] => some 0
  | '.' :: ds =>
    if ds = [] then none else
    match digitsVal ds with
    | none => none
    | some n => some ((2000 * n + 10 ^ ds.length) / (2 * 10 ^ ds.length))
  | _ => none

/-- A two-digit number. -/
def digit2 (c1 c2 : Char) : Option Nat :=
  match charDigit? c1, charDigit? c2 with
  | some d1, some d2 => some (10 * d1 + d2)
  | _, _ => none

/-- SQLite's datetime parser, restricted to the `YYYY-MM-DD HH:MM:SS[.FFF]`
shape the verified fragments exercise; any other string (in particular a
format string such as `%Y-%m-%d %H:%M:%f`) is not a valid time value and
yields `none`, exactly as in SQLite. -/
def parseDT (s : String) : Option DTVal :=
  match s.data with
  | y1 :: y2 :: y3 :: y4 :: '-' :: a1 :: a2 :: '-' :: b1 :: b2 :: ' ' ::
      h1 :: h2 :: ':' :: m1 :: m2 :: ':' :: s1 :: s2 :: rest =>
    match digit2 y1 y2, digit2 y3 y4, digit2 a1 a2, digit2 b1 b2,
        digit2 h1 h2, digit2 m1 m2, digit2 s1 s2, parseFrac rest with
    | some yh, some yl, some mo, some dy, some hh, some mi, some ss, some ms =>
      if 1 ≤ mo ∧ mo ≤ 12 ∧ 1 ≤ dy ∧ dy ≤ 31 ∧ hh ≤ 23 ∧ mi ≤ 59 ∧ ss ≤ 59 then
        some ⟨100 * yh + yl, mo, dy, hh, mi, 1000 * ss + ms⟩
      else none
    | _, _, _, _, _, _, _, _ => none
  | _ => none

/-- Folds a fractional second that rounded up to the next second into the
coarser fields (SQLite works on an absolute millisecond count, so the carry
is automatic there; day overflow is carried numerically, calendar
arithmetic being irrelevant to the verified fragments). -/
def DTVal.norm (dt : DTVal) : DTVal :=
  let total := (dt.hour * 60 + dt.minute) * 60000 + dt.secMs
  ⟨dt.year, dt.month, dt.day + total / 86400000,
    total % 86400000 / 3600000, total % 3600000 / 60000, total % 60000⟩

/-- One `strftime` conversion, for the directives the verified fragments
use; an unsupported directive makes the whole call yield `NULL`, as in
SQLite. -/
def renderDirective (dt : DTVal) : Char → Option (List Char)
  | 'Y' => some (padNat 4 dt.year)
  | 'm' => some (padNat 2 dt.month)
  | 'd' => some (padNat 2 dt.day)
  | 'H' => some (padNat 2 dt.hour)
  | 'M' => some (padNat 2 dt.minute)
  | 'S' => some (padNat 2 (dt.secMs / 1000))
  | 'f' => some (padNat 2 (dt.secMs / 1000) ++ '.' :: padNat 3 (dt.secMs % 1000))
  | '%' => some ['%']
  | _ => none

/-- Renders a `strftime` format string over a parsed datetime. -/
def renderFmt (dt : DTVal) : List Char → Option (List Char)
  | [] => some []
  | ['%'] => none
  | '%' :: c :: rest =>
    match renderDirective dt c, renderFmt dt rest with
    | some frag, some rendered => some (frag ++ rendered)
    | _, _ => none
  | c :: rest =>
    match renderFmt dt rest with
    | some rendered => some (c :: rendered)
    | none => none

/-- SQLite's `strftime(format, timevalue)` built-in: `NULL` unless the
SECOND argument parses as a time value, in which case the FIRST argument is
interpreted as the format string. -/
def sqliteStrftime (format timeValue : String) : Option String :=
  match parseDT timeValue with
  | none => none
  | some dt => (renderFmt dt.norm format.data).map String.mk

/-- SQLite's `substr(X, Y, Z)` for `Y ≥ 1`: the `Z` characters of `X`
starting at position `Y`; on a shorter `X` it simply stops at the end. -/
def sqliteSubstr (s : String) (start len : Nat) : String :=
  String.mk ((s.data.drop (start - 1)).take len)

/-- The value the fragment `normalize_timestamp(value, coltype)` evaluates
to when the column value is the time string `v`: the fragment reads
`strftime(<value>, '%Y-%m-%d %H:%M:%f')`, so `v` lands in `strftime`'s
format slot and the literal `%Y-%m-%d %H:%M:%f` in its time-value slot. -/
def normalize_timestamp_eval (v : String) (coltype : TemporalType) : Option String :=
  if coltype.rounds then
    (sqliteStrftime v "%Y-%m-%d %H:%M:%f").map
      (fun s => sqliteSubstr s 1 (TIMESTAMP_PRECISION_POS + coltype.precision))
  else
    sqliteStrftime v "%Y-%m-%d %H:%M:%f"

/-! ## Connection manager (`SQLite.create_connection` / `SQLite.close`) -/

/-- A scalar user-defined function: one blob/text argument (a byte list) to
a SQL value. -/
def UDF : Type := List Nat → SQLVal

/-- An open sqlite3 connection, as far as this layer manipulates it: the
scalar user-defined functions registered on it (registration is
per-connection in sqlite3). -/
structure Conn where
  funcs : List (String × UDF)

/-- `sqlite3.connect(**args)`: a fresh connection; no `data_diff` UDF is
registered on a fresh connection. -/
def sqlite3_connect (_args : String) : Conn := ⟨[]⟩

/-- `con.create_function(name, 1, f)`: registers `f` under `name`;
passing `None` (here `none`) removes the registration, as in sqlite3. -/
def Conn.create_function (c : Conn) (name : String) (f : Option UDF) : Conn :=
  match f with
  | some fn => ⟨(name, fn) :: c.funcs.filter (fun q => q.1 != name)⟩
  | none => ⟨c.funcs.filter (fun q => q.1 != name)⟩

/-- The names of the functions registered on a connection. -/
def Conn.funcNames (c : Conn) : List String := c.funcs.map Prod.fst

/-- The lowercase hexadecimal alphabet: the ten decimal digits followed by
`a` to `f`. -/
def hexChars : List Char :=
  (List.range 10).map digitChar ++ ['a', 'b', 'c', 'd', 'e', 'f']

/-- The lowercase hex character of a nibble. -/
def hexDigitChar (n : Nat) : Char := hexChars.getD (n % 16) '0'

/-- Lowercase hex encoding of a byte list, two characters per byte. -/
def hexLower (bytes : List Nat) : String :=
  String.mk (bytes.flatMap (fun b => [hexDigitChar (b / 16), hexDigitChar (b % 16)]))

/-- `hashlib.md5(t).hexdigest()`: the lowercase hex encoding of the digest.
The MD5 compression itself lives in Python's `hashlib`, outside the
verified file; it enters as the abstract digest function `md5`. -/
def hexdigest (md5 : List Nat → List Nat) (t : List Nat) : String :=
  hexLower (md5 t)

/-- The numeric value of a hex digit character (0 on anything else, which
never occurs on `hexdigest` output). -/
def hexVal (c : Char) : Nat :=
  if c = 'a' then 10 else if c = 'b' then 11 else if c = 'c' then 12
  else if c = 'd' then 13 else if c = 'e' then 14 else if c = 'f' then 15
  else (charDigit? c).getD 0

/-- `int(s, base=16)` on a hex string. -/
def natFromHex (s : String) : Nat :=
  s.data.foldl (fun a c => 16 * a + hexVal c) 0

/-- The local `data_diff__md5_int` of `SQLite.create_connection`:
`int(hashlib.md5(t).hexdigest(), base=16)`. -/
def data_diff__md5_int (md5 : List Nat → List Nat) : UDF :=
  fun t => SQLVal.int (Int.ofNat (natFromHex (hexdigest md5 t)))

/-- The local `data_diff__md5_hex` of `SQLite.create_connection`:
`hashlib.md5(t).hexdigest()`. -/
def data_diff__md5_hex (md5 : List Nat → List Nat) : UDF :=
  fun t => SQLVal.text (hexdigest md5 t)

/-- `SQLite.create_connection`: prints `self._args` to standard output
(the second component is the lines written), opens a connection on those
arguments, and registers the two MD5 UDFs on it. -/
def create_connection (args : String) (md5 : List Nat → List Nat) :
    Conn × List String :=
  let printed : List String := [args]
  let con := sqlite3_connect args
  let con := con.create_function "data_diff__md5_int" (some (data_diff__md5_int md5))
  let con := con.create_function "data_diff__md5_hex" (some (data_diff__md5_hex md5))
  (con, printed)

/-- `SQLite.close`: opens a NEW connection on `self._args`, removes the two
MD5 UDFs on that fresh connection, then calls `super().close()`.
`ThreadedDatabase.close` lives in `data_diff.databases.base`, outside the
verified file; modelled from the spec, it releases all held connections,
which the preceding `create_function(..., None)` calls never touched.  The
result is the held connections exactly as they are released, paired with
the fresh connection the removals were applied to. -/
def close (args : String) (held : List Conn) : List Conn × Conn :=
  let con := sqlite3_connect args
  let con := con.create_function "data_diff__md5_int" none
  let con := con.create_function "data_diff__md5_hex" none
  (held, con)

/-! ## Helper lemmas -/

theorem digitsRevAux_eq (fuel : Nat) : ∀ n, n ≤ fuel → digitsRevAux fuel n = Nat.digits 10 n := by
  induction fuel with
  | zero =>
    intro n hn
    interval_cases n
    simp [digitsRevAux, Nat.digits_zero]
  | succ fuel ih =>
    intro n hn
    cases n with
    | zero => simp [digitsRevAux, Nat.digits_zero]
    | succ m =>
      rw [show digitsRevAux (fuel + 1) (m + 1) =
          (m + 1) % 10 :: digitsRevAux fuel ((m + 1) / 10) from rfl]
      rw [ih ((m + 1) / 10) (by omega), Nat.digits_def' (by norm_num : (1:Nat) < 10) (Nat.succ_pos m)]

theorem natDigits10_eq (n : Nat) : natDigits10 n = Nat.digits 10 n :=
  digitsRevAux_eq n n le_rfl

theorem charDigit?_digitChar {d : Nat} (h : d < 10) : charDigit? (digitChar d) = some d := by
  interval_cases d <;> rfl

theorem charDigit?_ne_dot {c : Char} (h : (charDigit? c).isSome) : (c != '.') = true := by
  rw [bne_iff_ne]
  rintro rfl
  exact absurd h (by decide)

theorem charDigit?_ne_neg {c : Char} (h : (charDigit? c).isSome) : c ≠ '-' := by
  rintro rfl
  exact absurd h (by decide)

theorem digitsValAux_append (acc : Nat) (l1 l2 : List Char) :
    digitsValAux acc (l1 ++ l2) =
      match digitsValAux acc l1 with
      | some a => digitsValAux a l2
      | none => none := by
  induction l1 generalizing acc with
  | nil => rfl
  | cons c cs ih =>
    simp only [List.cons_append, digitsValAux]
    cases charDigit? c with
    | some d => exact ih _
    | none => rfl

theorem digitsValAux_zeros (k : Nat) : digitsValAux 0 (List.replicate k '0') = some 0 := by
  induction k with
  | zero => rfl
  | succ n ih =>
    have h0 : charDigit? '0' = some 0 := by decide
    simp [List.replicate_succ, digitsValAux, h0, ih]

theorem digitsValAux_msb (l : List Nat) (h : ∀ d ∈ l, d < 10) (acc : Nat) :
    digitsValAux acc ((l.map digitChar).reverse) =
      some (acc * 10 ^ l.length + Nat.ofDigits 10 l) := by
  induction l generalizing acc with
  | nil => simp [digitsValAux, Nat.ofDigits]
  | cons d t ih =>
    have hd : d < 10 := h d (List.mem_cons_self _ _)
    have ht : ∀ x ∈ t, x < 10 := fun x hx => h x (List.mem_cons_of_mem _ hx)
    rw [List.map_cons, List.reverse_cons, digitsValAux_append, ih ht acc]
    simp only [digitsValAux, charDigit?_digitChar hd, Nat.ofDigits_cons, List.length_cons]
    congr 1
    ring

theorem digitsVal_natMSBChars (n : Nat) : digitsVal (natMSBChars n) = some n := by
  unfold natMSBChars digitsVal
  rw [natDigits10_eq]
  split
  · rename_i h
    subst h
    rfl
  · have := digitsValAux_msb (Nat.digits 10 n)
      (fun d hd => Nat.digits_lt_base (by norm_num) hd) 0
    simpa [Nat.ofDigits_digits] using this

theorem digitsVal_padNat (k n : Nat) : digitsVal (padNat k n) = some n := by
  unfold padNat digitsVal
  rw [digitsValAux_append, digitsValAux_zeros]
  exact digitsVal_natMSBChars n

theorem digits_len_le_of_lt_pow {n k : Nat} (h : n < 10 ^ k) :
    (Nat.digits 10 n).length ≤ k := by
  rcases Nat.eq_zero_or_pos n with rfl | hn
  · simp
  · by_contra hc
    push_neg at hc
    have h1 : 10 ^ (Nat.digits 10 n).length ≤ 10 * n :=
      Nat.base_pow_length_digits_le 10 n (by norm_num) (by omega)
    have h2 : 10 ^ (k + 1) ≤ 10 ^ (Nat.digits 10 n).length :=
      Nat.pow_le_pow_right (by norm_num) hc
    rw [pow_succ] at h2
    omega

theorem natMSBChars_length_le {n k : Nat} (h : n < 10 ^ k) (hk : 1 ≤ k) :
    (natMSBChars n).length ≤ k := by
  unfold natMSBChars
  rw [natDigits10_eq]
  split
  · simpa using hk
  · simpa using digits_len_le_of_lt_pow h

theorem padNat_length {n k : Nat} (h : n < 10 ^ k) (hk : 1 ≤ k) :
    (padNat k n).length = k := by
  have := natMSBChars_length_le h hk
  unfold padNat
  rw [List.length_append, List.length_replicate]
  omega

theorem natMSBChars_digits (n : Nat) : ∀ c ∈ natMSBChars n, (charDigit? c).isSome := by
  unfold natMSBChars
  rw [natDigits10_eq]
  split
  · intro c hc
    simp only [List.mem_singleton] at hc
    subst hc
    decide
  · intro c hc
    rw [List.mem_reverse] at hc
    obtain ⟨d, hd, rfl⟩ := List.mem_map.mp hc
    have hlt : d < 10 := Nat.digits_lt_base (by norm_num) hd
    rw [charDigit?_digitChar hlt]
    rfl

theorem padNat_digits (k n : Nat) : ∀ c ∈ padNat k n, (charDigit? c).isSome := by
  intro c hc
  rcases List.mem_append.mp hc with h | h
  · have := List.eq_of_mem_replicate h
    subst this
    decide
  · exact natMSBChars_digits _ c h

theorem natMSBChars_ne_nil (n : Nat) : natMSBChars n ≠ [] := by
  unfold natMSBChars
  rw [natDigits10_eq]
  split
  · simp
  · rename_i hn
    simp [Nat.digits_ne_nil_iff_ne_zero, hn]

theorem takeWhile_all_true {q : Char → Bool} (l : List Char) (h : ∀ c ∈ l, q c = true) :
    l.takeWhile q = l ∧ l.dropWhile q = [] := by
  induction l with
  | nil => simp
  | cons c cs ih =>
    have hc := h c (List.mem_cons_self _ _)
    have := ih (fun x hx => h x (List.mem_cons_of_mem _ hx))
    simp [List.takeWhile_cons, List.dropWhile_cons, hc, this.1, this.2]

theorem takeWhile_append_stop {q : Char → Bool} (l1 : List Char) (c0 : Char) (l2 : List Char)
    (h1 : ∀ c ∈ l1, q c = true) (h0 : q c0 = false) :
    (l1 ++ c0 :: l2).takeWhile q = l1 ∧ (l1 ++ c0 :: l2).dropWhile q = c0 :: l2 := by
  induction l1 with
  | nil => simp [List.takeWhile_cons, List.dropWhile_cons, h0]
  | cons c cs ih =>
    have hc := h1 c (List.mem_cons_self _ _)
    have := ih (fun x hx => h1 x (List.mem_cons_of_mem _ hx))
    simp [List.takeWhile_cons, List.dropWhile_cons, hc, this.1, this.2]

theorem stripNeg_neg (l : List Char) : stripNeg ('-' :: l) = (true, l) := by
  simp [stripNeg]

theorem stripNeg_digits (l : List Char) (h : ∀ c ∈ l, (charDigit? c).isSome) :
    stripNeg l = (false, l) := by
  cases l with
  | nil => rfl
  | cons c cs =>
    have := charDigit?_ne_neg (h c (List.mem_cons_self _ _))
    simp [stripNeg, this]

theorem roundHalfUp_exact (q k : Nat) (hk : 0 < k) : (2 * (q * k) + k) / (2 * k) = q := by
  rw [show 2 * (q * k) + k = 2 * k * q + k by ring, Nat.mul_add_div (by omega),
    Nat.div_eq_of_lt (by omega)]
  omega

theorem str_append_empty (s : String) : s ++ "" = s := by
  cases s with
  | mk l => exact congrArg String.mk (List.append_nil l)

theorem str_append_assoc (a b c : String) : a ++ b ++ c = a ++ (b ++ c) := by
  cases a with
  | mk la =>
    cases b with
    | mk lb =>
      cases c with
      | mk lc => exact congrArg String.mk (List.append_assoc la lb lc)

theorem strData_mk (l : List Char) : (String.mk l).data = l := rfl

theorem parseDec_mk (l : List Char) : parseDec (String.mk l) = parseDecL l := rfl

theorem parseDecL_int (neg : Bool) (l : List Char) (hl : ∀ c ∈ l, (charDigit? c).isSome)
    (hne : l ≠ []) (n : Nat) (hn : digitsVal l = some n) :
    parseDecL ((if neg then ['-'] else []) ++ l) = some ⟨intOfSign neg n, 0⟩ := by
  have hq : ∀ c ∈ l, (fun c => c != '.') c = true :=
    fun c hc => charDigit?_ne_dot (hl c hc)
  have htake := takeWhile_all_true l hq
  cases neg with
  | true =>
    change parseDecL ('-' :: l) = _
    simp only [parseDecL, stripNeg_neg, htake.1, htake.2, if_neg hne, hn]
  | false =>
    change parseDecL l = _
    simp only [parseDecL, stripNeg_digits l hl, htake.1, htake.2, if_neg hne, hn]

theorem parseDecL_frac (neg : Bool) (l fp : List Char) (hl : ∀ c ∈ l, (charDigit? c).isSome)
    (hne : l ≠ [])
    (n fv : Nat) (hn : digitsVal l = some n) (hfv : digitsVal fp = some fv) :
    parseDecL ((if neg then ['-'] else []) ++ l ++ '.' :: fp) =
      some ⟨intOfSign neg (n * 10 ^ fp.length + fv), fp.length⟩ := by
  have hq : ∀ c ∈ l, (fun c => c != '.') c = true :=
    fun c hc => charDigit?_ne_dot (hl c hc)
  have hstop := takeWhile_append_stop l '.' fp hq (by decide)
  cases neg with
  | true =>
    change parseDecL ('-' :: (l ++ '.' :: fp)) = _
    simp only [parseDecL, stripNeg_neg, hstop.1, hstop.2, if_neg hne, hn, hfv]
  | false =>
    have hstrip : stripNeg (l ++ '.' :: fp) = (false, l ++ '.' :: fp) := by
      cases l with
      | nil => exact absurd rfl hne
      | cons c cs =>
        have := charDigit?_ne_neg (hl c (List.mem_cons_self _ _))
        simp [stripNeg, this]
    change parseDecL (l ++ '.' :: fp) = _
    simp only [parseDecL, hstrip, hstop.1, hstop.2, if_neg hne, hn, hfv]

theorem hexDigitChar_mem (n : Nat) : hexDigitChar n ∈ hexChars := by
  unfold hexDigitChar
  have h : n % 16 < 16 := Nat.mod_lt _ (by norm_num)
  revert h
  generalize n % 16 = k
  intro h
  interval_cases k <;> decide

theorem hexLower_mem (bytes : List Nat) : ∀ c ∈ (hexLower bytes).data, c ∈ hexChars := by
  intro c hc
  have hc' : c ∈ bytes.flatMap (fun b => [hexDigitChar (b / 16), hexDigitChar (b % 16)]) := hc
  rcases List.mem_flatMap.mp hc' with ⟨b, _, hcb⟩
  simp only [List.mem_cons, List.mem_singleton, List.not_mem_nil, or_false] at hcb
  rcases hcb with rfl | rfl <;> exact hexDigitChar_mem _

theorem lookup_of_mem_nodupKeys {β : Type} (l : List (String × β))
    (hnd : (l.map Prod.fst).Nodup) {name : String} {v : β} (hm : (name, v) ∈ l) :
    l.lookup name = some v := by
  induction l with
  | nil => cases hm
  | cons q t ih =>
    obtain ⟨k, b⟩ := q
    simp only [List.map_cons, List.nodup_cons] at hnd
    rcases List.mem_cons.mp hm with heq | hmem
    · injection heq with h1 h2
      subst h1
      subst h2
      simp [List.lookup]
    · have hname : name ∈ t.map Prod.fst := by
        have := List.mem_map_of_mem Prod.fst hmem
        simpa using this
      have hne : (name == k) = false :=
        beq_eq_false_iff_ne.mpr (fun hh => hnd.1 (hh ▸ hname))
      simp [List.lookup, hne, ih hnd.2 hmem]

theorem lookup_eq_none_of_notMem_keys {β : Type} (l : List (String × β)) (name : String)
    (h : name ∉ l.map Prod.fst) : l.lookup name = none := by
  induction l with
  | nil => rfl
  | cons q t ih =>
    obtain ⟨k, v⟩ := q
    simp only [List.map_cons, List.mem_cons] at h
    push_neg at h
    have hne : (name == k) = false := beq_eq_false_iff_ne.mpr h.1
    simp [List.lookup, hne, ih h.2]

theorem foldl_sqliteConcat2_text (ss : List String) (acc : String) :
    (ss.map SQLVal.text).foldl sqliteConcat2 (SQLVal.text acc) =
      SQLVal.text (acc ++ strJoin ss) := by
  induction ss generalizing acc with
  | nil => simp [strJoin, str_append_empty]
  | cons s t ih =>
    simp only [List.map_cons, List.foldl_cons]
    rw [show sqliteConcat2 (SQLVal.text acc) (SQLVal.text s) = SQLVal.text (acc ++ s) from rfl,
      ih, strJoin, str_append_assoc]

/-! ## Claim theorems -/

/-- C1: the claim says that with `rounds = true` the fragment evaluates to
the timestamp with its fractional seconds rounded to `precision` digits
(so `...4999995` at precision 3 becomes `...500`).  In fact the emitted
fragment is `substr(strftime(<value>, '%Y-%m-%d %H:%M:%f'), 1, 23)`:
`strftime`'s first argument is its format, so the column value lands in the
format slot and `%Y-%m-%d %H:%M:%f` in the time-value slot, which does not
parse — the fragment evaluates to NULL.  With the arguments in the correct
order SQLite itself would produce `...500` (third conjunct), but the
`substr` then truncates rather than rounds: at precision 1 it would cut
`.460` to `.4` (fourth conjunct). -/
theorem normalize_timestamp_rounds_is_broken :
    normalize_timestamp "v" ⟨3, true⟩ =
      "substr(strftime(v, \x27%Y-%m-%d %H:%M:%f\x27), 1, 23)" ∧
    normalize_timestamp_eval "2022-06-03 12:00:00.4999995" ⟨3, true⟩ = none ∧
    sqliteStrftime "%Y-%m-%d %H:%M:%f" "2022-06-03 12:00:00.4999995" =
      some "2022-06-03 12:00:00.500" ∧
    sqliteSubstr "2022-06-03 12:00:00.460" 1 (TIMESTAMP_PRECISION_POS + 1) =
      "2022-06-03 12:00:00.4" :=
  ⟨rfl, rfl, by decide, rfl⟩

/-- C2: the claim says the fragment evaluates to
`YYYY-MM-DD HH:MM:SS.FFF` with the fraction cut to `precision` digits
(`12:00:00.123456` at precision 3 giving `12:00:00.123`).  The emitted
fragment `strftime(<value>, '%Y-%m-%d %H:%M:%f')` has `strftime`'s
arguments swapped, so it evaluates to NULL; with the correct order the call
would yield `...123` (third conjunct), and even then `%f` always prints
exactly 3 fractional digits regardless of `coltype.precision`. -/
theorem normalize_timestamp_norounds_is_broken :
    normalize_timestamp "v" ⟨3, false⟩ = "strftime(v, \x27%Y-%m-%d %H:%M:%f\x27)" ∧
    normalize_timestamp_eval "2022-06-03 12:00:00.123456" ⟨3, false⟩ = none ∧
    sqliteStrftime "%Y-%m-%d %H:%M:%f" "2022-06-03 12:00:00.123456" =
      some "2022-06-03 12:00:00.123" :=
  ⟨rfl, rfl, by decide⟩

/-- C4: the fragment `a is not b` evaluates under SQLite's three-valued
logic to a boolean that is false on two NULLs, true when exactly one
operand is NULL, and false when both operands equal the same non-NULL
value (in particular both 1). -/
theorem is_distinct_from_three_valued :
    is_distinct_from "a" "b" = "a is not b" ∧
    is_distinct_from_eval SQLVal.null SQLVal.null = SQLVal.int 0 ∧
    (∀ a b : SQLVal, (a = SQLVal.null ↔ b ≠ SQLVal.null) →
      is_distinct_from_eval a b = SQLVal.int 1) ∧
    (∀ v : SQLVal, v ≠ SQLVal.null → is_distinct_from_eval v v = SQLVal.int 0) ∧
    is_distinct_from_eval (SQLVal.int 1) (SQLVal.int 1) = SQLVal.int 0 := by
  refine ⟨rfl, rfl, ?_, ?_, by simp [is_distinct_from_eval, sqliteIsNot]⟩
  · intro a b h
    have hne : a ≠ b := by
      rintro rfl
      by_cases hn : a = SQLVal.null
      · exact (h.mp hn) hn
      · exact hn (h.mpr hn)
    simp [is_distinct_from_eval, sqliteIsNot, hne]
  · intro v _
    simp [is_distinct_from_eval, sqliteIsNot]

/-- Witness for C4 at concrete operands: one NULL operand against the
integer 1 is distinct. -/
theorem is_distinct_from_three_valued_witness :
    is_distinct_from_eval SQLVal.null (SQLVal.int 1) = SQLVal.int 1 :=
  is_distinct_from_three_valued.2.2.1 SQLVal.null (SQLVal.int 1) (by simp)

/-- C5: for every entry of the dialect's type table, `classify` returns
exactly that entry's class, and on any name outside the table it returns
`UnknownColType` instead of failing. -/
theorem classify_total_on_table (name : String) (t : ColTypeClass) :
    ((name, t) ∈ TYPE_CLASSES → classify name = t) ∧
    (name ∉ TYPE_CLASSES.map Prod.fst → classify name = ColTypeClass.UnknownColType) := by
  constructor
  · intro h
    unfold classify
    rw [lookup_of_mem_nodupKeys TYPE_CLASSES (by decide) h]
    rfl
  · intro h
    unfold classify
    rw [lookup_eq_none_of_notMem_keys TYPE_CLASSES name h]
    rfl

/-- Witness for C5: a multi-word table entry maps to `Text`, and a name
outside the table maps to `UnknownColType`. -/
theorem classify_total_on_table_witness :
    classify "VARYING CHARACTER" = ColTypeClass.Text ∧
    classify "FOOBAR" = ColTypeClass.UnknownColType :=
  ⟨(classify_total_on_table "VARYING CHARACTER" ColTypeClass.Text).1 (by decide),
   (classify_total_on_table "FOOBAR" ColTypeClass.Integer).2 (by decide)⟩

/-- C6: `concat` rejects every call with fewer than two expressions (the
assertion fails), and on two or more expressions its fragment is the items
joined by `||`, whose evaluation on string values is exactly their
concatenation in order. -/
theorem concat_assertion_and_evaluation (items : List String) :
    (items.length ≤ 1 → concat items = none) ∧
    (1 < items.length →
      concat items = some (String.intercalate " || " items) ∧
      evalConcatChain (items.map SQLVal.text) = SQLVal.text (strJoin items)) := by
  constructor
  · intro h
    unfold concat
    rw [if_neg (by omega)]
  · intro h
    refine ⟨by unfold concat; rw [if_pos h], ?_⟩
    obtain ⟨s, t, rfl⟩ : ∃ s t, items = s :: t := by
      cases items with
      | nil => simp at h
      | cons a b => exact ⟨a, b, rfl⟩
    simp only [List.map_cons, evalConcatChain]
    exact foldl_sqliteConcat2_text t s

/-- Witness for C6: a single expression is rejected, and the literals
`a`, `b`, `c` concatenate to `abc`. -/
theorem concat_assertion_and_evaluation_witness :
    concat ["a"] = none ∧
    concat ["a", "b", "c"] = some "a || b || c" ∧
    evalConcatChain [SQLVal.text "a", SQLVal.text "b", SQLVal.text "c"] =
      SQLVal.text "abc" := by
  refine ⟨(concat_assertion_and_evaluation ["a"]).1 (by decide), ?_, ?_⟩
  · exact ((concat_assertion_and_evaluation ["a", "b", "c"]).2 (by decide)).1
  · exact ((concat_assertion_and_evaluation ["a", "b", "c"]).2 (by decide)).2

/-- C7: run on a manager holding one connection produced by
`create_connection` (so both MD5 functions registered on it), `close`
performs its two removals on a freshly opened connection that never had
any registration (second conjunct: its function table is empty), while the
held connection is released still carrying both registrations untouched
(first conjunct) — the deregistration is not applied to the connections on
which the functions were registered. -/
theorem close_unregisters_on_wrong_connection (md5 : List Nat → List Nat) :
    ((close "file.db" [(create_connection "file.db" md5).1]).1.map Conn.funcNames =
      [["data_diff__md5_hex", "data_diff__md5_int"]]) ∧
    ((close "file.db" [(create_connection "file.db" md5).1]).2.funcNames = []) :=
  ⟨rfl, rfl⟩

/-- C8: every connection produced by `create_connection` carries
registrations for exactly the names the `md5_as_int` / `md5_as_hex`
fragments call, and the registered hex function applied to any byte input
returns the lowercase hex encoding of the trusted digest `md5` of that
input (every output character is in the lowercase hex alphabet). -/
theorem create_connection_registers_md5 (args : String)
    (md5 : List Nat → List Nat) (t : List Nat) :
    md5_as_int "x" = "data_diff__md5_int(x)" ∧
    md5_as_hex "x" = "data_diff__md5_hex(x)" ∧
    "data_diff__md5_int" ∈ ((create_connection args md5).1).funcNames ∧
    "data_diff__md5_hex" ∈ ((create_connection args md5).1).funcNames ∧
    (∃ f, ((create_connection args md5).1).funcs.lookup "data_diff__md5_hex" = some f ∧
      f t = SQLVal.text (hexLower (md5 t))) ∧
    (∀ c ∈ (hexLower (md5 t)).data, c ∈ hexChars) := by
  refine ⟨rfl, rfl, ?_, ?_, ⟨data_diff__md5_hex md5, rfl, rfl⟩, hexLower_mem (md5 t)⟩
  · show "data_diff__md5_int" ∈ ["data_diff__md5_hex", "data_diff__md5_int"]
    exact List.mem_cons_of_mem _ (List.mem_cons_self _ _)
  · show "data_diff__md5_hex" ∈ ["data_diff__md5_hex", "data_diff__md5_int"]
    exact List.mem_cons_self _ _

/-- C9: `create_connection` writes the connection parameters to standard
output — its printed-lines trace is exactly `[args]` and in particular not
empty — refuting the claim that connecting emits nothing beyond its return
value. -/
theorem create_connection_prints_args (args : String) (md5 : List Nat → List Nat) :
    (create_connection args md5).2 = [args] ∧ (create_connection args md5).2 ≠ [] :=
  ⟨rfl, by simp [create_connection]⟩

/-- C10: `quote` wraps its argument in exactly one leading and one
trailing double quote with no other change, so a double quote inside the
identifier appears unescaped in the fragment. -/
theorem quote_wraps_in_double_quotes (s : String) :
    quote s = "\"" ++ s ++ "\"" ∧
    (quote s).data = '"' :: (s.data ++ ['"']) ∧
    quote "a\"b" = "\"a\"b\"" := by
  refine ⟨rfl, ?_, rfl⟩
  cases s with
  | mk l => rfl

/-- C3: for a fractional column type of precision `p` and any exact decimal
value `m / 10^s` whose scale `s` is at most `p`, the evaluated
`normalize_number` fragment parses back (by the independent decimal reader)
to exactly the same decimal value rescaled to `p` fractional digits (first
and second conjuncts), the decimal point is omitted exactly when `p = 0`
(third conjunct), and for `p > 0` the part after the decimal point consists
of exactly `p` digit characters (fourth conjunct). -/
theorem normalize_number_roundtrip (m : Int) (s p : Nat) (h : s ≤ p) :
    parseDec (normalize_number_eval ⟨m, s⟩ ⟨p⟩) =
      some ⟨m * (10 : Int) ^ (p - s), p⟩ ∧
    DecVal.toRat ⟨m * (10 : Int) ^ (p - s), p⟩ = DecVal.toRat ⟨m, s⟩ ∧
    (p = 0 → '.' ∉ (normalize_number_eval ⟨m, s⟩ ⟨p⟩).data) ∧
    (p ≠ 0 → ∃ fp, (normalize_number_eval ⟨m, s⟩ ⟨p⟩).data.dropWhile
        (fun c => c != '.') = '.' :: fp ∧ fp.length = p ∧
        ∀ c ∈ fp, (charDigit? c).isSome) := by
  have hpow : (10 : Nat) ^ p = 10 ^ (p - s) * 10 ^ s := by
    rw [← pow_add]
    congr 1
    omega
  have ha : (2 * (m.natAbs * 10 ^ p) + 10 ^ s) / (2 * 10 ^ s)
      = m.natAbs * 10 ^ (p - s) := by
    rw [hpow, show m.natAbs * (10 ^ (p - s) * 10 ^ s)
      = m.natAbs * 10 ^ (p - s) * 10 ^ s by ring]
    exact roundHalfUp_exact _ _ (pow_pos (by norm_num) s)
  have heval : normalize_number_eval ⟨m, s⟩ ⟨p⟩ =
      String.mk ((if m < 0 then ['-'] else []) ++
        natMSBChars (m.natAbs * 10 ^ (p - s) / 10 ^ p) ++
        (if p = 0 then [] else '.' :: padNat p (m.natAbs * 10 ^ (p - s) % 10 ^ p))) := by
    show String.mk ((if m < 0 then ['-'] else []) ++
        natMSBChars ((2 * (m.natAbs * 10 ^ p) + 10 ^ s) / (2 * 10 ^ s) / 10 ^ p) ++
        (if p = 0 then []
          else '.' :: padNat p ((2 * (m.natAbs * 10 ^ p) + 10 ^ s) / (2 * 10 ^ s) % 10 ^ p)))
      = _
    rw [ha]
  have hf : m.natAbs * 10 ^ (p - s) % 10 ^ p < 10 ^ p :=
    Nat.mod_lt _ (pow_pos (by norm_num) p)
  refine ⟨?_, ?_, ?_, ?_⟩
  · rw [heval, parseDec_mk]
    by_cases hp : p = 0
    · subst hp
      have hs0 : s = 0 := Nat.le_zero.mp h
      subst hs0
      simp only [Nat.sub_self, pow_zero, mul_one, Nat.div_one, if_pos, List.append_nil]
      by_cases hm : m < 0
      · rw [if_pos hm]
        have hres := parseDecL_int true (natMSBChars m.natAbs) (natMSBChars_digits _)
          (natMSBChars_ne_nil _) m.natAbs (digitsVal_natMSBChars _)
        have h2 : intOfSign true m.natAbs = m := by
          show -((m.natAbs : Nat) : Int) = m
          omega
        exact hres.trans (by rw [h2])
      · rw [if_neg hm]
        have hres := parseDecL_int false (natMSBChars m.natAbs) (natMSBChars_digits _)
          (natMSBChars_ne_nil _) m.natAbs (digitsVal_natMSBChars _)
        have h2 : intOfSign false m.natAbs = m := by
          show ((m.natAbs : Nat) : Int) = m
          omega
        exact hres.trans (by rw [h2])
    · rw [if_neg hp]
      have hmant : m.natAbs * 10 ^ (p - s) / 10 ^ p * 10 ^ p
          + m.natAbs * 10 ^ (p - s) % 10 ^ p = m.natAbs * 10 ^ (p - s) := by
        rw [Nat.mul_comm]
        exact Nat.div_add_mod _ (10 ^ p)
      have hcast : ((m.natAbs * 10 ^ (p - s) : Nat) : Int)
          = (m.natAbs : Int) * (10 : Int) ^ (p - s) := by
        push_cast
        ring
      by_cases hm : m < 0
      · rw [if_pos hm]
        have hres := parseDecL_frac true
          (natMSBChars (m.natAbs * 10 ^ (p - s) / 10 ^ p))
          (padNat p (m.natAbs * 10 ^ (p - s) % 10 ^ p))
          (natMSBChars_digits _) (natMSBChars_ne_nil _)
          (m.natAbs * 10 ^ (p - s) / 10 ^ p) (m.natAbs * 10 ^ (p - s) % 10 ^ p)
          (digitsVal_natMSBChars _) (digitsVal_padNat _ _)
        refine hres.trans ?_
        rw [padNat_length hf (by omega), hmant]
        have h2 : intOfSign true (m.natAbs * 10 ^ (p - s)) = m * (10 : Int) ^ (p - s) := by
          show -((m.natAbs * 10 ^ (p - s) : Nat) : Int) = m * (10 : Int) ^ (p - s)
          have h4 : ((m.natAbs : Nat) : Int) = -m := by omega
          rw [hcast, h4]
          ring
        rw [h2]
      · rw [if_neg hm]
        have hres := parseDecL_frac false
          (natMSBChars (m.natAbs * 10 ^ (p - s) / 10 ^ p))
          (padNat p (m.natAbs * 10 ^ (p - s) % 10 ^ p))
          (natMSBChars_digits _) (natMSBChars_ne_nil _)
          (m.natAbs * 10 ^ (p - s) / 10 ^ p) (m.natAbs * 10 ^ (p - s) % 10 ^ p)
          (digitsVal_natMSBChars _) (digitsVal_padNat _ _)
        refine hres.trans ?_
        rw [padNat_length hf (by omega), hmant]
        have h2 : intOfSign false (m.natAbs * 10 ^ (p - s)) = m * (10 : Int) ^ (p - s) := by
          show ((m.natAbs * 10 ^ (p - s) : Nat) : Int) = m * (10 : Int) ^ (p - s)
          have h4 : ((m.natAbs : Nat) : Int) = m := by omega
          rw [hcast, h4]
        rw [h2]
  · unfold DecVal.toRat
    have h10 : ((10 : ℚ)) ^ p = 10 ^ (p - s) * 10 ^ s := by
      rw [← pow_add]
      congr 1
      omega
    push_cast
    rw [h10, mul_comm ((m : ℚ)) ((10 : ℚ) ^ (p - s))]
    exact mul_div_mul_left _ _ (pow_ne_zero _ (by norm_num))
  · intro hp
    subst hp
    rw [heval, strData_mk]
    simp only [if_pos, List.append_nil]
    intro hmem
    rcases List.mem_append.mp hmem with hmem | hmem
    · split at hmem
      · simp at hmem
      · simp at hmem
    · exact absurd (natMSBChars_digits _ '.' hmem) (by decide)
  · intro hp
    rw [heval, strData_mk, if_neg hp]
    refine ⟨padNat p (m.natAbs * 10 ^ (p - s) % 10 ^ p), ?_,
      padNat_length hf (by omega), padNat_digits _ _⟩
    have hall : ∀ c ∈ (if m < 0 then ['-'] else []) ++
        natMSBChars (m.natAbs * 10 ^ (p - s) / 10 ^ p),
        (fun c => c != '.') c = true := by
      intro c hc
      rcases List.mem_append.mp hc with hc | hc
      · split at hc
        · simp only [List.mem_singleton] at hc
          subst hc
          decide
        · simp at hc
      · exact charDigit?_ne_dot (natMSBChars_digits _ c hc)
    exact (takeWhile_append_stop _ '.' _ hall (by decide)).2

/-- Witness for C3 at precision 2, value 3 (rendering `3.00`) and at
precision 0, value `-5` (rendering `-5`, no decimal point). -/
theorem normalize_number_roundtrip_witness :
    normalize_number_eval ⟨3, 0⟩ ⟨2⟩ = "3.00" ∧
    parseDec "3.00" = some ⟨3 * (10 : Int) ^ (2 - 0), 2⟩ ∧
    normalize_number_eval ⟨-5, 0⟩ ⟨0⟩ = "-5" := by
  have h := (normalize_number_roundtrip 3 0 2 (by decide)).1
  rw [show normalize_number_eval ⟨3, 0⟩ ⟨2⟩ = "3.00" from by decide] at h
  exact ⟨by decide, h, by decide⟩

/-- Witness for C7: the concrete run with a trivial digest function. -/
theorem close_unregisters_on_wrong_connection_witness :
    (close "file.db" [(create_connection "file.db" (fun _ => [])).1]).2.funcNames = [] :=
  (close_unregisters_on_wrong_connection (fun _ => [])).2

/-- Witness for C8 at a concrete digest function and byte input. -/
theorem create_connection_registers_md5_witness :
    md5_as_hex "x" = "data_diff__md5_hex(x)" ∧
    "data_diff__md5_hex" ∈ ((create_connection "db" (fun _ => [171, 205])).1).funcNames := by
  have h := create_connection_registers_md5 "db" (fun _ => [171, 205]) [1, 2]
  exact ⟨h.2.1, h.2.2.2.1⟩

/-- Witness for C9 at concrete connection parameters. -/
theorem create_connection_prints_args_witness :
    (create_connection "path.db" (fun _ => [])).2 = ["path.db"] :=
  (create_connection_prints_args "path.db" (fun _ => [])).1

/-- Witness for C10 at a concrete identifier. -/
theorem quote_wraps_in_double_quotes_witness :
    quote "col" = "\"col\"" :=
  (quote_wraps_in_double_quotes "col").1

end SqliteDiff
